import Mathlib

/-
Verification of the time-series cache synchronizer in
freqtrade/optimize/__init__.py: range trimming (trim_tickerlist),
cache resume-point computation (load_cached_data_for_updating),
per-pair download orchestration (download_pairs) and gap validation
(validate_backtest_data), shallowly embedded over lists of timestamped
records.
-/

set_option maxHeartbeats 1000000

/-- One OHLCV sample.  In the source a record is a JSON array whose
element 0 is the timestamp in milliseconds; the remaining numeric
fields (open, high, low, close, volume) are carried along but never
inspected by this core, so they are kept as an abstract payload. -/
structure Record where
  ts : Int
  fields : List Int
  deriving DecidableEq, Repr

/-- The mode of one side of a TimeRange: the Python code stores
`None`, the string `'line'`, `'index'` or `'date'`. -/
inductive RangeMode where
  | none
  | line
  | index
  | date
  deriving DecidableEq, Repr

/-- `freqtrade.arguments.TimeRange`: a named tuple
`(starttype, stoptype, startts, stopts)`. -/
structure TimeRange where
  starttype : RangeMode
  stoptype : RangeMode
  startts : Int
  stopts : Int
  deriving DecidableEq, Repr

/-- Resolution of one Python slice bound over a list of length `n`:
negative values count from the end (clamped below at 0), non-negative
values are clamped above at `n`. -/
def pyIndex (n : Nat) (i : Int) : Nat :=
  if i < 0 then ((n : Int) + i).toNat else min n i.toNat

/-- Python slice `l[i:j]` (step 1) with full Python index semantics. -/
def pySlice (l : List α) (i j : Int) : List α :=
  (l.take (pyIndex l.length j)).drop (pyIndex l.length i)

/-- The forward scan of `trim_tickerlist` for a `date` start bound:
starting from index 0, advance while the record's timestamp is below
`tms` (the bound already in milliseconds). -/
def dateStartScan : List Record → Int → Nat
  | [], _ => 0
  | r :: rs, tms => if r.ts < tms then dateStartScan rs tms + 1 else 0

/-- The backward scan of `trim_tickerlist` for a `date` stop bound,
running from position `k` downwards: while the record at position
`k - 1` has timestamp above `tms`, decrement.  Looking up a position
at or beyond the list length is a Python `IndexError`, reported as
`Except.error`. -/
def dateStopScanLoop (l : List Record) (tms : Int) : Nat → Except String Nat
  | 0 => Except.ok 0
  | k + 1 =>
    match l[k]? with
    | Option.none => Except.error "list index out of range"
    | Option.some r =>
      if r.ts > tms then dateStopScanLoop l tms k else Except.ok (k + 1)

/-- The `date` stop scan started from the current `stop_index` value
`init` (an arbitrary integer: a `line` start mode may have replaced
the default `len(tickerlist)`).  A non-positive start leaves the loop
immediately. -/
def dateStopScanInit (l : List Record) (tms : Int) (init : Int) : Except String Int :=
  if init ≤ 0 then Except.ok init
  else (dateStopScanLoop l tms init.toNat).map (fun k => (k : Int))

/-- Errors `trim_tickerlist` can raise: the explicit `ValueError`
carrying both bounds of the offending timerange, and the Python
`IndexError` reachable through a `date` stop scan started beyond the
end of the list. -/
inductive TrimError where
  | range (startts stopts : Int)
  | indexOutOfRange
  deriving DecidableEq, Repr

/-- The message of the `ValueError` raised by `trim_tickerlist`. -/
def trimErrorMessage : TrimError → String
  | TrimError.range a b =>
    "The timerange [" ++ toString a ++ "," ++ toString b ++ "] is incorrect"
  | TrimError.indexOutOfRange => "list index out of range"

/-- Resolution of the start and stop indices of `trim_tickerlist`,
following the statement order of the source: a `line` start overrides
`stop_index` with `startts`; an `index` start sets `start_index`
directly, a `date` start runs the forward scan; a `line` stop sets
`start_index := n + stopts`; an `index` stop sets `stop_index`
directly, a `date` stop runs the backward scan from the current
`stop_index`. -/
def resolveIndices (l : List Record) (tr : TimeRange) : Except TrimError (Int × Int) :=
  let n : Int := l.length
  let stop0 : Int := if tr.starttype = RangeMode.line then tr.startts else n
  let start0 : Int :=
    if tr.starttype = RangeMode.index then tr.startts
    else if tr.starttype = RangeMode.date then (dateStartScan l (tr.startts * 1000) : Int)
    else 0
  let start1 : Int := if tr.stoptype = RangeMode.line then n + tr.stopts else start0
  if tr.stoptype = RangeMode.index then Except.ok (start1, tr.stopts)
  else if tr.stoptype = RangeMode.date then
    match dateStopScanInit l (tr.stopts * 1000) stop0 with
    | Except.error _ => Except.error TrimError.indexOutOfRange
    | Except.ok stop1 => Except.ok (start1, stop1)
  else Except.ok (start1, stop0)

/-- `trim_tickerlist(tickerlist, timerange)`: empty input is returned
unchanged; otherwise the two indices are resolved, a resolved start
above the resolved stop raises `ValueError`, and the Python slice
`tickerlist[start_index:stop_index]` is returned. -/
def trim_tickerlist (tickerlist : List Record) (tr : TimeRange) :
    Except TrimError (List Record) :=
  if tickerlist.isEmpty then Except.ok tickerlist
  else
    match resolveIndices tickerlist tr with
    | Except.error e => Except.error e
    | Except.ok (s, e) =>
      if s > e then Except.error (TrimError.range tr.startts tr.stopts)
      else Except.ok (pySlice tickerlist s e)

/-- The `since_ms` computed by `load_cached_data_for_updating` before
the cache is read: `None` unless a timerange is given; a `date` start
gives `startts * 1000`; otherwise a `line` stop gives the wall clock
shifted by `stopts` intervals, in milliseconds.  `tick_mins` is the
interval length in minutes (the source looks it up in the external
`constants.TICKER_INTERVAL_MINUTES` table) and `now_ts` is the current
Unix time in seconds (the source reads `arrow.utcnow()`). -/
def requestedSince (timerange : Option TimeRange) (tick_mins : Int) (now_ts : Int) :
    Option Int :=
  match timerange with
  | Option.none => Option.none
  | Option.some tr =>
    if tr.starttype = RangeMode.date then Option.some (tr.startts * 1000)
    else if tr.stoptype = RangeMode.line then
      Option.some ((now_ts + tr.stopts * tick_mins * 60) * 1000)
    else Option.none

/-- The last record of the non-empty list `r :: rs` (Python
`data[-1]`). -/
def lastRec : Record → List Record → Record
  | r, [] => r
  | _, r' :: rs => lastRec r' rs

/-- The tail of `load_cached_data_for_updating` after the cache has
been read and trimmed: on empty data the requested `since_ms` passes
through; on non-empty data, a truthy `since_ms` strictly below the
first cached timestamp discards the cache for a full refetch, and
otherwise the resume point is the last retained timestamp plus one.
Note the Python truthiness test `if since_ms and ...`: a requested
`since_ms` equal to 0 is falsy and does not trigger the refetch
branch. -/
def selectResume : List Record → Option Int → List Record × Option Int
  | [], s => ([], s)
  | r :: rs, Option.some v =>
    if v ≠ 0 ∧ v < r.ts then ([], Option.some v)
    else (r :: rs, Option.some ((lastRec r rs).ts + 1))
  | r :: rs, Option.none => (r :: rs, Option.some ((lastRec r rs).ts + 1))

/-- `load_cached_data_for_updating(filename, tick_interval, timerange)`.
The file system is abstracted: `cache` is `none` when no cache file
exists and `some d` for a decoded cache content `d`.  The decoded data
unconditionally loses its last record (`data.pop()` on a non-empty
list, and `dropLast` is the identity on `[]`), then `selectResume`
chooses the retained series and the resume point. -/
def load_cached_data_for_updating (cache : Option (List Record)) (tick_mins : Int)
    (timerange : Option TimeRange) (now_ts : Int) : List Record × Option Int :=
  let data0 : List Record :=
    match cache with
    | Option.some d => d.dropLast
    | Option.none => []
  selectResume data0 (requestedSince timerange tick_mins now_ts)

/-- `download_pairs(datadir, exchange, pairs, ticker_interval)`:
`dl p` abstracts whether `download_backtesting_testdata` completes for
pair `p` (`false` means it raised).  The returned list collects the
pairs whose download completed, in order; on the first failure the
loop logs and returns `False` immediately, so nothing after the
failing pair is attempted. -/
def download_pairs (dl : String → Bool) : List String → Bool × List String
  | [] => (true, [])
  | p :: ps =>
    if dl p then
      let r := download_pairs dl ps
      (r.1, p :: r.2)
    else (false, [])

/-- `validate_backtest_data(data, min_date, max_date, ticker_interval_mins)`:
`data` carries, per pair, the length of its series; the dates are Unix
seconds.  `expected_frames` is the double floor division of the span
in seconds by 60 and by the interval; the result is whether some pair
has fewer records than expected. -/
def validate_backtest_data (data : List (String × Nat)) (min_date max_date : Int)
    (ticker_interval_mins : Int) : Bool :=
  let expected_frames := ((max_date - min_date).fdiv 60).fdiv ticker_interval_mins
  data.any (fun p => decide ((p.2 : Int) < expected_frames))

/-- A concrete ascending 20-record series (one record per minute). -/
def series20 : List Record :=
  (List.range 20).map (fun i => Record.mk ((i : Int) * 60000) [])

/-- A concrete ascending 3-record series used as a witness input. -/
def sample3 : List Record :=
  [Record.mk 1000 [], Record.mk 2000 [], Record.mk 3000 []]

deriving instance DecidableEq for Except

lemma pyIndex_natCast (n k : Nat) : pyIndex n (k : Int) = min n k := by
  simp [pyIndex]

lemma pyIndex_le (n : Nat) (i : Int) : pyIndex n i ≤ n := by
  rw [pyIndex]
  split
  · omega
  · exact min_le_left _ _

lemma pySlice_zero_length (l : List α) : pySlice l 0 (l.length : Int) = l := by
  have h0 : pyIndex l.length 0 = 0 := by simp [pyIndex]
  have h1 : pyIndex l.length (l.length : Int) = l.length := by
    simpa using pyIndex_natCast l.length l.length
  simp [pySlice, h0, h1]

lemma take_min_left (l : List α) (k : Nat) : l.take (min l.length k) = l.take k := by
  rcases le_total k l.length with h | h
  · rw [min_eq_right h]
  · rw [min_eq_left h, List.take_of_length_le h, List.take_length]

lemma pySlice_natCast_start (l : List α) (k : Nat) (hk : k ≤ l.length) (j : Int) :
    pySlice l (k : Int) j = (l.drop k).take (pyIndex l.length j - k) := by
  have h : pyIndex l.length (k : Int) = k := by
    rw [pyIndex_natCast, min_eq_right hk]
  rw [pySlice, h, List.drop_take]

/-- C9: trimming with a timerange that constrains neither side is the
identity on every series, whatever the (ignored) numeric fields. -/
theorem trim_none_none_id (S : List Record) (a b : Int) :
    trim_tickerlist S (TimeRange.mk RangeMode.none RangeMode.none a b) = Except.ok S := by
  by_cases h : S.isEmpty
  · simp [trim_tickerlist, h]
  · have hn : ¬ ((0 : Int) > (S.length : Int)) := by omega
    simp [trim_tickerlist, h, resolveIndices, hn, pySlice_zero_length]

/-- C6: in line mode the range fields have dual semantics: a `line`
start value `v` overrides the resolved stop index (the slice ends at
index `v`), a `line` stop value `w` sets the resolved start index to
`n + w`, and a `line` stop of -5 on the 20-record series returns
exactly the last 5 records. -/
theorem trim_line_dual (S : List Record) (v w : Int) (hv : 0 ≤ v) (hw : w ≤ 0)
    (hwn : 0 ≤ (S.length : Int) + w) :
    resolveIndices S (TimeRange.mk RangeMode.line RangeMode.none v 0) = Except.ok (0, v)
    ∧ trim_tickerlist S (TimeRange.mk RangeMode.line RangeMode.none v 0)
        = Except.ok (S.take v.toNat)
    ∧ resolveIndices S (TimeRange.mk RangeMode.none RangeMode.line 0 w)
        = Except.ok ((S.length : Int) + w, (S.length : Int))
    ∧ trim_tickerlist S (TimeRange.mk RangeMode.none RangeMode.line 0 w)
        = Except.ok (S.drop ((S.length : Int) + w).toNat)
    ∧ trim_tickerlist series20 (TimeRange.mk RangeMode.none RangeMode.line 0 (-5))
        = Except.ok (series20.drop 15) := by
  refine ⟨by simp [resolveIndices], ?_, by simp [resolveIndices], ?_, by decide⟩
  · by_cases h : S.isEmpty
    · have : S = [] := by simpa using h
      subst this
      simp [trim_tickerlist]
    · have hgt : ¬ ((0 : Int) > v) := by omega
      have hsl : pySlice S 0 v = S.take v.toNat := by
        have h0 : pyIndex S.length 0 = 0 := by simp [pyIndex]
        have h1 : pyIndex S.length v = min S.length v.toNat := by
          rw [pyIndex, if_neg (by omega)]
        rw [pySlice, h0, h1, List.drop_zero, take_min_left]
      simp [trim_tickerlist, h, resolveIndices, hgt, hsl]
  · by_cases h : S.isEmpty
    · have : S = [] := by simpa using h
      subst this
      simp [trim_tickerlist]
    · have hgt : ¬ ((S.length : Int) + w > (S.length : Int)) := by omega
      have hsl : pySlice S ((S.length : Int) + w) (S.length : Int)
          = S.drop ((S.length : Int) + w).toNat := by
        have h1 : pyIndex S.length ((S.length : Int) + w)
            = ((S.length : Int) + w).toNat := by
          rw [pyIndex, if_neg (by omega)]
          omega
        have h2 : pyIndex S.length (S.length : Int) = S.length := by
          simpa using pyIndex_natCast S.length S.length
        rw [pySlice, h1, h2, List.take_length]
      simp [trim_tickerlist, h, resolveIndices, hgt, hsl]

/-- Witness for C6 at the 20-record series with stop line -5 and a
line start of 3. -/
theorem trim_line_dual_witness :
    trim_tickerlist series20 (TimeRange.mk RangeMode.line RangeMode.none 3 0)
      = Except.ok (series20.take 3)
    ∧ trim_tickerlist series20 (TimeRange.mk RangeMode.none RangeMode.line 0 (-5))
      = Except.ok (series20.drop 15) :=
  ⟨(trim_line_dual series20 3 (-5) (by decide) (by decide) (by decide)).2.1,
   (trim_line_dual series20 3 (-5) (by decide) (by decide) (by decide)).2.2.2.1⟩

lemma ediv_ediv_of_pos (a : Int) {b c : Int} (hb : 0 < b) (hc : 0 < c) :
    a / b / c = a / (b * c) := by
  have hbc : 0 < b * c := mul_pos hb hc
  apply le_antisymm
  · rw [Int.le_ediv_iff_mul_le hbc]
    have h1 : a / b / c * c ≤ a / b := (Int.le_ediv_iff_mul_le hc).mp le_rfl
    have h2 : a / b / c * c * b ≤ a := (Int.le_ediv_iff_mul_le hb).mp h1
    calc a / b / c * (b * c) = a / b / c * c * b := by ring
    _ ≤ a := h2
  · rw [Int.le_ediv_iff_mul_le hc, Int.le_ediv_iff_mul_le hb]
    have h1 : a / (b * c) * (b * c) ≤ a := (Int.le_ediv_iff_mul_le hbc).mp le_rfl
    calc a / (b * c) * c * b = a / (b * c) * (b * c) := by ring
    _ ≤ a := h1

/-- C8: validate_backtest_data returns true exactly when some pair has
strictly fewer records than the floor of the requested span in minutes
divided by the interval in minutes; the embedding is a pure total
function, so it neither raises nor modifies the data. -/
theorem validate_backtest_data_iff (data : List (String × Nat))
    (min_date max_date mins : Int) (h : 0 < mins) :
    validate_backtest_data data min_date max_date mins = true ↔
      ∃ p ∈ data, (p.2 : Int) < (max_date - min_date).fdiv (60 * mins) := by
  have key : ((max_date - min_date).fdiv 60).fdiv mins
      = (max_date - min_date).fdiv (60 * mins) := by
    rw [Int.fdiv_eq_ediv _ (by norm_num : (0:Int) ≤ 60), Int.fdiv_eq_ediv _ h.le,
        Int.fdiv_eq_ediv _ (by positivity : (0:Int) ≤ 60 * mins)]
    exact ediv_ediv_of_pos _ (by norm_num) h
  simp [validate_backtest_data, List.any_eq_true, key]

/-- Witness for C8: over one hour with 5-minute candles, 12 frames are
expected and a pair with only 3 records reports missing data. -/
theorem validate_backtest_data_iff_witness :
    validate_backtest_data [("ETH_BTC", 10), ("LTC_BTC", 3)] 0 3600 5 = true :=
  (validate_backtest_data_iff [("ETH_BTC", 10), ("LTC_BTC", 3)] 0 3600 5
    (by norm_num)).mpr (by decide)

/-- C2 counterexample: with a fetcher that fails on the first pair
only, download_pairs stops at the failure and the second pair is never
downloaded, so a single failure does abort the rest of the batch. -/
theorem download_pairs_cex :
    download_pairs (fun p => p != "ETH/BTC") ["ETH/BTC", "LTC/BTC"] = (false, [])
    ∧ "LTC/BTC" ∉ (download_pairs (fun p => p != "ETH/BTC") ["ETH/BTC", "LTC/BTC"]).2 := by
  decide

/-- C2 amended: a failure for one pair is caught inside the per-pair
loop and makes download_pairs return False at once with no further
pair attempted, while a batch whose downloads all succeed is processed
in full. -/
theorem download_pairs_abort (dl : String → Bool) (p : String) (ps qs : List String)
    (h : dl p = false) (hq : ∀ q ∈ qs, dl q = true) :
    download_pairs dl (p :: ps) = (false, []) ∧ download_pairs dl qs = (true, qs) := by
  constructor
  · simp [download_pairs, h]
  · induction qs with
    | nil => simp [download_pairs]
    | cons q qs ih =>
      have hq1 : dl q = true := hq q (by simp)
      have hrest := ih (fun x hx => hq x (by simp [hx]))
      simp [download_pairs, hq1, hrest]

/-- Witness for C2 at a concrete failing fetcher and batch. -/
theorem download_pairs_abort_witness :
    download_pairs (fun p => p != "ETH/BTC") ["ETH/BTC", "LTC/BTC"] = (false, [])
    ∧ download_pairs (fun p => p != "ETH/BTC") ["LTC/BTC"] = (true, ["LTC/BTC"]) :=
  download_pairs_abort (fun p => p != "ETH/BTC") "ETH/BTC" ["LTC/BTC"] ["LTC/BTC"]
    (by decide) (by decide)



lemma getLast?_cons_lastRec (r : Record) (rs : List Record) :
    (r :: rs).getLast? = Option.some (lastRec r rs) := by
  induction rs generalizing r with
  | nil => rfl
  | cons x xs ih => rw [lastRec, List.getLast?_cons_cons, ih x]

lemma dropLast_getLast?_eq (D : List Record) (hn : 2 ≤ D.length) :
    D.dropLast.getLast? = D[D.length - 2]? := by
  rw [List.getLast?_eq_getElem? _, List.length_dropLast, List.dropLast_eq_take,
      List.getElem?_take]
  have h2 : D.length - 1 - 1 = D.length - 2 := by omega
  rw [if_pos (by omega : D.length - 1 - 1 < D.length - 1), h2]

lemma load_cached_some_eq (D : List Record) (tick_mins : Int)
    (timerange : Option TimeRange) (now_ts : Int) :
    load_cached_data_for_updating (Option.some D) tick_mins timerange now_ts
      = selectResume D.dropLast (requestedSince timerange tick_mins now_ts) := rfl

lemma load_cached_none_eq (tick_mins : Int) (timerange : Option TimeRange) (now_ts : Int) :
    load_cached_data_for_updating Option.none tick_mins timerange now_ts
      = ([], requestedSince timerange tick_mins now_ts) := rfl

lemma selectResume_nonempty (d : List Record) (s : Option Int) (r : Record)
    (h : (selectResume d s).1.getLast? = Option.some r) :
    (selectResume d s).2 = Option.some (r.ts + 1) := by
  rcases d with _ | ⟨r0, rs⟩
  · rw [selectResume] at h
    simp at h
  · rcases s with _ | v
    · rw [selectResume] at h ⊢
      rw [getLast?_cons_lastRec] at h
      rw [Option.some_inj.mp h]
    · rw [selectResume] at h ⊢
      by_cases hv : v ≠ 0 ∧ v < r0.ts
      · rw [if_pos hv] at h
        simp at h
      · rw [if_neg hv] at h ⊢
        rw [getLast?_cons_lastRec] at h
        rw [Option.some_inj.mp h]

/-- C10: whenever load_cached_data_for_updating returns a non-empty
retained series, the returned since_ms is set and equals the last
retained record's timestamp plus one, whatever the requested range. -/
theorem load_cached_nonempty_resume (cache : Option (List Record))
    (tick_mins now_ts : Int) (timerange : Option TimeRange) (r : Record)
    (h : (load_cached_data_for_updating cache tick_mins timerange now_ts).1.getLast?
          = Option.some r) :
    (load_cached_data_for_updating cache tick_mins timerange now_ts).2
      = Option.some (r.ts + 1) := by
  rcases cache with _ | D
  · rw [load_cached_none_eq] at h
    simp at h
  · rw [load_cached_some_eq] at h ⊢
    exact selectResume_nonempty _ _ r h

/-- Witness for C10 at a concrete three-record cache with no
timerange. -/
theorem load_cached_nonempty_resume_witness :
    (load_cached_data_for_updating (Option.some sample3) 5 Option.none 0).2
      = Option.some 2001 :=
  load_cached_nonempty_resume (Option.some sample3) 5 0 Option.none
    (Record.mk 2000 []) (by decide)

/-- C1 counterexample: on a one-record cache with no requested since,
load_cached_data_for_updating returns an empty retained series and an
unset since_ms, not a resume point one past a retained record. -/
theorem load_cached_singleton_cex :
    load_cached_data_for_updating (Option.some [Record.mk 1000 []]) 5 Option.none 0
      = ([], Option.none) := by decide

/-- C1 amended: for a cached series of n records with n at least 2 and
no requested since, the last record is dropped, the retained series is
the first n - 1 records, and since_ms resumes one millisecond after
the second-to-last original record; for n = 1 the retained series is
empty and since_ms stays unset. -/
theorem load_cached_resume_after_second_last (D : List Record)
    (tick_mins now_ts : Int) (timerange : Option TimeRange) (hn : 2 ≤ D.length)
    (hns : requestedSince timerange tick_mins now_ts = Option.none) :
    load_cached_data_for_updating (Option.some D) tick_mins timerange now_ts
      = (D.dropLast, Option.some ((D.get ⟨D.length - 2, by omega⟩).ts + 1)) := by
  have hlen : D.dropLast.length = D.length - 1 := List.length_dropLast D
  rw [load_cached_some_eq, hns]
  rcases hD : D.dropLast with _ | ⟨r0, rs⟩
  · rw [hD] at hlen
    simp at hlen
    omega
  · rw [selectResume]
    have h2 : Option.some (lastRec r0 rs) = Option.some (D.get ⟨D.length - 2, by omega⟩) := by
      rw [← getLast?_cons_lastRec, ← hD, dropLast_getLast?_eq D hn,
          List.getElem?_eq_getElem (by omega), List.get_eq_getElem]
    rw [← hD, Option.some_inj.mp h2]

/-- Witness for C1 at a concrete three-record cache with no
timerange. -/
theorem load_cached_resume_after_second_last_witness :
    load_cached_data_for_updating (Option.some sample3) 5 Option.none 0
      = (sample3.dropLast,
         Option.some ((sample3.get ⟨sample3.length - 2, by decide⟩).ts + 1)) :=
  load_cached_resume_after_second_last sample3 5 0 Option.none (by decide) rfl

/-- C3 counterexample: a requested date start at Unix time 0 yields
since_ms = 0, which is falsy in Python, so the full-refetch branch is
skipped even though 0 is strictly earlier than the first cached
timestamp: the cache is kept and the resume point overrides the
request. -/
theorem load_cached_zero_since_cex :
    load_cached_data_for_updating (Option.some [Record.mk 1000 [], Record.mk 2000 []]) 5
        (Option.some (TimeRange.mk RangeMode.date RangeMode.none 0 0)) 0
      ≠ ([], Option.some 0) := by decide

/-- C3 amended: if the cache after dropping its last record is
non-empty with first timestamp t_cache, and the requested since_ms
exists, is nonzero, and is strictly earlier than t_cache, then
load_cached_data_for_updating returns an empty retained series and the
requested since_ms unchanged. -/
theorem load_cached_full_refetch (D : List Record) (tick_mins now_ts : Int)
    (timerange : Option TimeRange) (s : Int) (r0 : Record) (rs : List Record)
    (hD : D.dropLast = r0 :: rs)
    (hs : requestedSince timerange tick_mins now_ts = Option.some s)
    (hs0 : s ≠ 0) (hlt : s < r0.ts) :
    load_cached_data_for_updating (Option.some D) tick_mins timerange now_ts
      = ([], Option.some s) := by
  rw [load_cached_some_eq, hs, hD, selectResume, if_pos ⟨hs0, hlt⟩]

/-- Witness for C3: a nonzero requested since earlier than the cache
start triggers the full refetch. -/
theorem load_cached_full_refetch_witness :
    load_cached_data_for_updating
        (Option.some [Record.mk 500000 [], Record.mk 600000 []]) 5
        (Option.some (TimeRange.mk RangeMode.date RangeMode.none 100 0)) 0
      = ([], Option.some 100000) :=
  load_cached_full_refetch [Record.mk 500000 [], Record.mk 600000 []] 5 0
    (Option.some (TimeRange.mk RangeMode.date RangeMode.none 100 0)) 100000
    (Record.mk 500000 []) [] rfl rfl (by decide) (by decide)

/-- C4 counterexample: with no cache file and a range with no date
start but a line stop, the returned fetch-since is set (from the wall
clock shifted by stopts intervals), not unset as the claim states for
every range without a date-mode start. -/
theorem load_cached_no_cache_cex :
    (load_cached_data_for_updating Option.none 1
        (Option.some (TimeRange.mk RangeMode.none RangeMode.line 0 (-5))) 1000).2
      ≠ Option.none := by decide

/-- C4 amended: with no cache file the retained series is empty and
the fetch-since is the requested-range value: a date-mode start gives
its timestamp in milliseconds; otherwise a line-mode stop gives the
wall clock shifted by stopts intervals, in milliseconds; any other
range (or no range) leaves it unset. -/
theorem load_cached_no_cache_since (tick_mins now_ts : Int)
    (timerange : Option TimeRange) :
    load_cached_data_for_updating Option.none tick_mins timerange now_ts
        = ([], requestedSince timerange tick_mins now_ts)
    ∧ (∀ tr : TimeRange, tr.starttype = RangeMode.date →
        requestedSince (Option.some tr) tick_mins now_ts
          = Option.some (tr.startts * 1000))
    ∧ (∀ tr : TimeRange, tr.starttype ≠ RangeMode.date → tr.stoptype = RangeMode.line →
        requestedSince (Option.some tr) tick_mins now_ts
          = Option.some ((now_ts + tr.stopts * tick_mins * 60) * 1000))
    ∧ (∀ tr : TimeRange, tr.starttype ≠ RangeMode.date → tr.stoptype ≠ RangeMode.line →
        requestedSince (Option.some tr) tick_mins now_ts = Option.none)
    ∧ requestedSince Option.none tick_mins now_ts = Option.none := by
  refine ⟨load_cached_none_eq tick_mins timerange now_ts, ?_, ?_, ?_, rfl⟩
  · intro tr h
    simp [requestedSince, h]
  · intro tr h1 h2
    simp [requestedSince, h1, h2]
  · intro tr h1 h2
    simp [requestedSince, h1, h2]

/-- Witness for C4: no cache and a line-mode stop of -5 intervals of
1 minute at wall clock 1000 gives since_ms = 700000. -/
theorem load_cached_no_cache_since_witness :
    load_cached_data_for_updating Option.none 1
        (Option.some (TimeRange.mk RangeMode.none RangeMode.line 0 (-5))) 1000
      = ([], Option.some 700000) := by
  have h := load_cached_no_cache_since 1 1000
    (Option.some (TimeRange.mk RangeMode.none RangeMode.line 0 (-5)))
  rw [h.1, h.2.2.1 (TimeRange.mk RangeMode.none RangeMode.line 0 (-5)) (by decide) rfl]
  norm_num

lemma dateStartScan_le_length (l : List Record) (tms : Int) :
    dateStartScan l tms ≤ l.length := by
  induction l with
  | nil => simp [dateStartScan]
  | cons r rs ih =>
    rw [dateStartScan]
    by_cases h : r.ts < tms
    · rw [if_pos h]
      simpa using ih
    · rw [if_neg h]
      simp

lemma mem_take_dateStartScan (l : List Record) (tms : Int) :
    ∀ r ∈ l.take (dateStartScan l tms), r.ts < tms := by
  induction l with
  | nil => simp
  | cons x xs ih =>
    rw [dateStartScan]
    by_cases h : x.ts < tms
    · rw [if_pos h, List.take_succ_cons]
      intro r hr
      rcases List.mem_cons.mp hr with h1 | h1
      · rw [h1]
        exact h
      · exact ih r h1
    · rw [if_neg h]
      simp

lemma mem_drop_dateStartScan (l : List Record) (tms : Int)
    (hasc : l.Pairwise (fun a b => a.ts ≤ b.ts)) :
    ∀ r ∈ l.drop (dateStartScan l tms), tms ≤ r.ts := by
  induction l with
  | nil => simp
  | cons x xs ih =>
    rw [dateStartScan]
    rcases List.pairwise_cons.mp hasc with ⟨hx, hxs⟩
    by_cases h : x.ts < tms
    · rw [if_pos h, List.drop_succ_cons]
      exact ih hxs
    · rw [if_neg h, List.drop_zero]
      intro r hr
      rcases List.mem_cons.mp hr with h1 | h1
      · rw [h1]
        omega
      · have := hx r h1
        omega

lemma trim_ok_slice (S : List Record) (tr : TimeRange) (res : List Record)
    (hne : S ≠ []) (hok : trim_tickerlist S tr = Except.ok res) :
    ∃ s e : Int, resolveIndices S tr = Except.ok (s, e) ∧ s ≤ e
      ∧ res = pySlice S s e := by
  rw [trim_tickerlist, if_neg (by simpa using hne)] at hok
  rcases hres : resolveIndices S tr with e | ⟨s, e⟩
  · rw [hres] at hok
    cases hok
  · rw [hres] at hok
    have hok2 : (if s > e then Except.error (TrimError.range tr.startts tr.stopts)
        else Except.ok (pySlice S s e)) = Except.ok res := hok
    by_cases hgt : s > e
    · rw [if_pos hgt] at hok2
      cases hok2
    · rw [if_neg hgt] at hok2
      exact ⟨s, e, rfl, by omega, (Except.ok.injEq _ _ |>.mp hok2).symm⟩

lemma resolveIndices_date_start (S : List Record) (tr : TimeRange)
    (hst : tr.starttype = RangeMode.date) (hsp : tr.stoptype ≠ RangeMode.line)
    (s e : Int) (h : resolveIndices S tr = Except.ok (s, e)) :
    s = (dateStartScan S (tr.startts * 1000) : Int) := by
  rw [resolveIndices] at h
  simp only [hst] at h
  rcases hstop : tr.stoptype with _ | _ | _ | _ <;> rw [hstop] at h <;> simp at h
  · exact h.1.symm
  · exact absurd hstop hsp
  · exact h.1.symm
  · rcases hscan : dateStopScanInit S (tr.stopts * 1000) (S.length : Int) with _ | k <;>
      rw [hscan] at h <;> simp at h
    exact h.1.symm

/-- C5: for an ascending non-empty series and a date-mode start t0
(with no line-mode stop, which would override the start index), every
returned record's timestamp is at least t0*1000, the result is a
contiguous slice of the series starting exactly at the scan index, and
every record before that index (in particular the one immediately
before the returned slice, when the scan index is positive) has
timestamp strictly below t0*1000. -/
theorem trim_date_start_bound (S : List Record) (tr : TimeRange) (t0 : Int)
    (res : List Record) (hasc : S.Pairwise (fun a b => a.ts ≤ b.ts)) (hS : S ≠ [])
    (hst : tr.starttype = RangeMode.date) (ht0 : tr.startts = t0)
    (hsp : tr.stoptype ≠ RangeMode.line)
    (hok : trim_tickerlist S tr = Except.ok res) :
    (∀ r ∈ res, t0 * 1000 ≤ r.ts)
    ∧ (∃ m, res = (S.drop (dateStartScan S (t0 * 1000))).take m)
    ∧ (∀ r ∈ S.take (dateStartScan S (t0 * 1000)), r.ts < t0 * 1000) := by
  obtain ⟨s, e, hres, hle, hslice⟩ := trim_ok_slice S tr res hS hok
  have hs := resolveIndices_date_start S tr hst hsp s e hres
  rw [ht0] at hs
  have hkle : dateStartScan S (t0 * 1000) ≤ S.length := dateStartScan_le_length S _
  have hres_eq : res = (S.drop (dateStartScan S (t0 * 1000))).take
      (pyIndex S.length e - dateStartScan S (t0 * 1000)) := by
    rw [hslice, hs, pySlice_natCast_start S _ hkle e]
  refine ⟨?_, ⟨_, hres_eq⟩, mem_take_dateStartScan S _⟩
  intro r hr
  rw [hres_eq] at hr
  exact mem_drop_dateStartScan S _ hasc r (List.mem_of_mem_take hr)

/-- Witness for C5 at a concrete ascending three-record series with a
date start of 2 seconds. -/
theorem trim_date_start_bound_witness :
    (∀ r ∈ [Record.mk 2000 [], Record.mk 3000 []], (2 : Int) * 1000 ≤ r.ts)
    ∧ (∃ m, [Record.mk 2000 [], Record.mk 3000 []]
        = (sample3.drop (dateStartScan sample3 (2 * 1000))).take m)
    ∧ (∀ r ∈ sample3.take (dateStartScan sample3 (2 * 1000)), r.ts < 2 * 1000) :=
  trim_date_start_bound sample3 (TimeRange.mk RangeMode.date RangeMode.none 2 0) 2
    [Record.mk 2000 [], Record.mk 3000 []] (by decide) (by decide) rfl rfl
    (by decide) (by decide)

lemma resolveIndices_error_eq (S : List Record) (tr : TimeRange) (er : TrimError)
    (h : resolveIndices S tr = Except.error er) : er = TrimError.indexOutOfRange := by
  rw [resolveIndices] at h
  rcases hstop : tr.stoptype with _ | _ | _ | _ <;> rw [hstop] at h <;> simp at h
  rcases hscan : dateStopScanInit S (tr.stopts * 1000)
      (if tr.starttype = RangeMode.line then tr.startts else (S.length : Int)) with _ | k <;>
    rw [hscan] at h <;> simp at h
  exact h.symm

/-- C7: trim_tickerlist raises the ValueError carrying both timerange
bounds exactly when the input is non-empty and the indices resolve
with the start strictly above the stop; an empty input is returned
unchanged without any error, for every range. -/
theorem trim_rangeError_iff (S : List Record) (tr : TimeRange) :
    (trim_tickerlist S tr = Except.error (TrimError.range tr.startts tr.stopts)
      ↔ S ≠ [] ∧ ∃ p : Int × Int, resolveIndices S tr = Except.ok p ∧ p.2 < p.1)
    ∧ trim_tickerlist ([] : List Record) tr = Except.ok [] := by
  constructor
  · by_cases hS : S = []
    · subst hS
      simp [trim_tickerlist]
    · rw [trim_tickerlist, if_neg (by simpa using hS)]
      rcases hres : resolveIndices S tr with er | ⟨s, e⟩
      · have her := resolveIndices_error_eq S tr er hres
        subst her
        constructor
        · intro hcontra
          have : TrimError.indexOutOfRange = TrimError.range tr.startts tr.stopts :=
            Except.error.injEq _ _ |>.mp hcontra
          cases this
        · rintro ⟨_, p, hp, _⟩
          cases hp
      · have hred : (match (Except.ok (s, e) : Except TrimError (Int × Int)) with
            | Except.error e => Except.error e
            | Except.ok (s, e) =>
              if s > e then Except.error (TrimError.range tr.startts tr.stopts)
              else Except.ok (pySlice S s e))
            = (if s > e then Except.error (TrimError.range tr.startts tr.stopts)
               else Except.ok (pySlice S s e)) := rfl
        rw [hred]
        by_cases hgt : s > e
        · rw [if_pos hgt]
          exact ⟨fun _ => ⟨hS, ⟨(s, e), rfl, hgt⟩⟩, fun _ => rfl⟩
        · rw [if_neg hgt]
          constructor
          · intro hcontra
            cases hcontra
          · rintro ⟨_, p, hp, hlt⟩
            have hpe : (s, e) = p := Except.ok.injEq _ _ |>.mp hp
            rw [← hpe] at hlt
            simp at hlt
            omega
  · simp [trim_tickerlist]
